import Mathlib

/-!
Verification of the SDP `Description` model of `include/rtc/description.hpp`
(libdatachannel session-description layer).

Only the header is available: functions whose bodies are written inline in the
header (`Application::setSctpPort`, `Application::hintSctpPort`,
`Media::RTPMap::addAttribute`, the default arguments of the constructors and of
`addApplication`/`addAudio`/`addVideo`) are embedded from that source text.
All other behaviour (constructors, parse, generate, reciprocate, candidate and
entry lifecycle) lives in the missing `description.cpp`; those definitions are
modelled from the specification document, each marked `Modelled from the spec:`.

The SDP text is modelled at line granularity: an `SdpLine` is the structured
content of one SDP line (`v=`, `o=`, `m=`, `a=mid:`, `a=rtpmap:`, ...); the
lexical sub-syntax of a single line is abstracted away, which is exactly the
level at which the specification describes parsing ("splits text into lines,
classifies each") and generation.
-/

namespace Rtc

/-- `Description::Type` — SDP message type in the offer/answer exchange. -/
inductive DType
  | Unspec | Offer | Answer | Pranswer | Rollback
  deriving DecidableEq, Repr

/-- `Description::Role` — DTLS setup role. -/
inductive Role
  | ActPass | Passive | Active
  deriving DecidableEq, Repr

/-- `Description::Direction` — media direction of an entry. -/
inductive Direction
  | SendOnly | RecvOnly | SendRecv | Inactive | Unknown
  deriving DecidableEq, Repr

/-- Structured content of one SDP line. Modelled from the spec: section 6 lists
the line shapes produced and consumed (`v=`, `o=`, `s=`, `t=`, `c=`,
`a=group:BUNDLE`, `a=ice-ufrag`, `a=ice-pwd`, `a=fingerprint`, `m=`, `a=mid`,
direction tokens, `b=AS`, `a=rtpmap`, `a=rtcp-fb`, `a=fmtp`, `a=ssrc`,
`a=sctp-port`, max-message-size, `a=candidate`, `a=end-of-candidates`);
`otherAttr` stands for any other attribute line, preserved verbatim. -/
inductive SdpLine
  | version
  | origin (username sessionId : String)
  | sessionName
  | sessionTime
  | connection
  | bundle (mids : List String)
  | iceUfrag (v : String)
  | icePwd (v : String)
  | fingerprint (v : String)
  | mline (mtype mdescr : String)
  | amid (mid : String)
  | dirAttr (d : Direction)
  | bitrate (n : Nat)
  | rtpmap (pt : Nat) (format : String) (clockRate : Nat) (encParams : String)
  | rtcpFb (pt : Nat) (mech : String)
  | fmtp (pt : Nat) (params : String)
  | ssrc (id : Nat) (name : Option String)
  | sctpPort (p : Nat)
  | maxMessageSize (n : Nat)
  | candidate (c : String)
  | endOfCandidates
  | otherAttr (line : String)
  deriving DecidableEq, Repr

/-- `Description::Media::RTPMap` — one payload type's codec definition. -/
structure RTPMap where
  pt : Nat
  format : String
  clockRate : Nat
  encParams : String
  rtcpFbs : List String
  fmtps : List String
  deriving DecidableEq, Repr

/-- Modelled from the spec: a fresh `RTPMap` for payload type `pt` with the
given format fields and no feedback/format-parameter lines. -/
def RTPMap.make (pt : Nat) (format : String) (clockRate : Nat) (encParams : String) : RTPMap :=
  { pt := pt, format := format, clockRate := clockRate, encParams := encParams,
    rtcpFbs := [], fmtps := [] }

/-- `RTPMap::addAttribute` (inline in the header): `fmtps.emplace_back(attr)`. -/
def RTPMap.addAttribute (r : RTPMap) (attr : String) : RTPMap :=
  { r with fmtps := r.fmtps ++ [attr] }

/-- `Description::Media` — an audio/video section: `m=` type token, the rest of
the `m=` line, mid, direction, preserved opaque attribute lines, `b=AS` bitrate
(`int mBas = -1`, -1 meaning unset), the RTPMap collection keyed by payload
type, and the SSRC list (each id optionally paired with a cname). -/
structure MediaEntry where
  type : String
  descr : String
  mid : String
  direction : Direction
  attributes : List SdpLine
  bitrate : Int
  rtpMap : List RTPMap
  ssrcs : List (Nat × Option String)
  deriving DecidableEq, Repr

/-- `Description::Application` — the data-channel section: mid, direction,
preserved opaque attribute lines, optional SCTP port and max message size. -/
structure ApplicationEntry where
  mid : String
  direction : Direction
  attributes : List SdpLine
  sctpPort : Option Nat
  maxMessageSize : Option Nat
  deriving DecidableEq, Repr

/-- An owned `Description::Entry`: the closed variant over Application/Media. -/
inductive Entry
  | application (a : ApplicationEntry)
  | media (m : MediaEntry)
  deriving DecidableEq, Repr

/-- `Description` — the top-level aggregate: type, role, session fields,
ordered entry list, candidate list and the end-of-candidates flag.
`Candidate` is an external opaque value with a textual form, modelled as a
string. -/
structure Description where
  type : DType
  role : Role
  username : String
  sessionId : String
  iceUfrag : Option String
  icePwd : Option String
  fingerprint : Option String
  entries : List Entry
  candidates : List String
  ended : Bool
  deriving DecidableEq, Repr

/-! ## Entry constructors and accessors -/

/-- Modelled from the spec: `Application::Application(string mid)` creates a
fresh data-channel entry with that mid, direction Unknown (the `Entry`
constructor's default), no attributes and unset port/size. The header declares
the default argument `mid = "data"`. -/
def ApplicationEntry.make (mid : String) : ApplicationEntry :=
  { mid := mid, direction := Direction.Unknown, attributes := [],
    sctpPort := none, maxMessageSize := none }

/-- Modelled from the spec: `Media::Media(mline, mid, dir)` creates a fresh
media entry; the `m=` media-type token and the rest of the `m=` line are kept,
bitrate starts unset (-1), RTPMaps and SSRCs empty. -/
def MediaEntry.make (mtype mdescr mid : String) (dirn : Direction) : MediaEntry :=
  { type := mtype, descr := mdescr, mid := mid, direction := dirn,
    attributes := [], bitrate := -1, rtpMap := [], ssrcs := [] }

/-- Modelled from the spec: `Audio::Audio(mid, dir)` — a Media construction
preset with media type "audio". Header default arguments:
`mid = "audio"`, `dir = Direction::SendOnly`. -/
def Audio.make (mid : String) (dirn : Direction) : MediaEntry :=
  MediaEntry.make "audio" "9 UDP/TLS/RTP/SAVPF" mid dirn

/-- Modelled from the spec: `Video::Video(mid, dir)` — a Media construction
preset with media type "video". Header default arguments:
`mid = "video"`, `dir = Direction::SendOnly`. -/
def Video.make (mid : String) (dirn : Direction) : MediaEntry :=
  MediaEntry.make "video" "9 UDP/TLS/RTP/SAVPF" mid dirn

/-- The mid of an entry (`Entry::mid`). -/
def Entry.mid : Entry → String
  | .application a => a.mid
  | .media m => m.mid

/-- The direction of an entry (`Entry::direction`). -/
def Entry.direction : Entry → Direction
  | .application a => a.direction
  | .media m => m.direction

/-- Whether an entry is the Application (data-channel) entry. -/
def Entry.isApplication : Entry → Bool
  | .application _ => true
  | .media _ => false

/-! ## Application operations (inline in the header) -/

/-- `Application::setSctpPort` (inline in the header): `mSctpPort = port;` —
unconditional assignment. -/
def ApplicationEntry.setSctpPort (a : ApplicationEntry) (port : Nat) : ApplicationEntry :=
  { a with sctpPort := some port }

/-- `Application::hintSctpPort` (inline in the header):
`mSctpPort = mSctpPort.value_or(port);` — keeps the current value when one is
set, otherwise stores `port`. -/
def ApplicationEntry.hintSctpPort (a : ApplicationEntry) (port : Nat) : ApplicationEntry :=
  { a with sctpPort := some (a.sctpPort.getD port) }

/-- `Application::setMaxMessageSize` (inline in the header):
`mMaxMessageSize = size;`. -/
def ApplicationEntry.setMaxMessageSize (a : ApplicationEntry) (size : Nat) : ApplicationEntry :=
  { a with maxMessageSize := some size }

/-! ## Media operations -/

/-- Modelled from the spec: the direction mapping of reciprocation —
"direction flipped per the rule: SendOnly↔RecvOnly, SendRecv/Inactive
unchanged". -/
def Direction.reciprocated : Direction → Direction
  | .SendOnly => .RecvOnly
  | .RecvOnly => .SendOnly
  | d => d

/-- Modelled from the spec: `Media::reciprocate()` returns a new Media with the
same mid and RTPMaps but with the direction flipped per
`Direction.reciprocated`. -/
def MediaEntry.reciprocate (m : MediaEntry) : MediaEntry :=
  { m with direction := m.direction.reciprocated }

/-- Modelled from the spec: `Application::reciprocate()` — "same mid/port/size
... mostly identity plus mid preservation". -/
def ApplicationEntry.reciprocate (a : ApplicationEntry) : ApplicationEntry := a

/-- Modelled from the spec: `Media::addSSRC(ssrc, name)` appends the SSRC with
its optional cname to the ordered SSRC list. -/
def MediaEntry.addSSRC (m : MediaEntry) (s : Nat) (name : Option String) : MediaEntry :=
  { m with ssrcs := m.ssrcs ++ [(s, name)] }

/-- Modelled from the spec: `Media::replaceSSRC(oldSSRC, ssrc, name)` replaces
`oldSSRC` by `ssrc` in the SSRC list; when no new name is supplied (the `name`
argument is the empty string) the name previously associated with the old SSRC
is preserved, otherwise the supplied name is attached. -/
def MediaEntry.replaceSSRC (m : MediaEntry) (oldSSRC s : Nat) (name : String) : MediaEntry :=
  { m with ssrcs := m.ssrcs.map fun p =>
      if p.1 = oldSSRC then (s, if name.isEmpty then p.2 else some name) else p }

/-- Modelled from the spec: `Media::hasSSRC`. -/
def MediaEntry.hasSSRC (m : MediaEntry) (s : Nat) : Bool :=
  m.ssrcs.any fun p => p.1 == s

/-- Modelled from the spec: `Media::getSSRCs` returns the SSRC ids in order. -/
def MediaEntry.getSSRCs (m : MediaEntry) : List Nat :=
  m.ssrcs.map Prod.fst

/-- Modelled from the spec: `Media::addRTPMap` inserts an RTPMap keyed by its
payload type; a payload type already present is not duplicated (the collection
is a map with unique keys). -/
def MediaEntry.addRTPMap (m : MediaEntry) (r : RTPMap) : MediaEntry :=
  if m.rtpMap.any (fun x => x.pt == r.pt) then m
  else { m with rtpMap := m.rtpMap ++ [r] }

/-- Modelled from the spec: `Media::hasPayloadType` — membership test on the
RTPMap keys. -/
def MediaEntry.hasPayloadType (m : MediaEntry) (pt : Nat) : Bool :=
  m.rtpMap.any fun x => x.pt == pt

/-- Modelled from the spec: `Media::removeFormat(fmt)` deletes a payload type
by codec name, removing all its RTPMaps. -/
def MediaEntry.removeFormat (m : MediaEntry) (fmt : String) : MediaEntry :=
  { m with rtpMap := m.rtpMap.filter fun x => x.format != fmt }

/-- Modelled from the spec: `Media::setBitrate` stores the `b=AS` value. -/
def MediaEntry.setBitrate (m : MediaEntry) (b : Nat) : MediaEntry :=
  { m with bitrate := (b : Int) }

/-! ## Description operations -/

/-- Modelled from the spec: `Description::removeApplication` detaches the
Application entry and removes it from the ordered entry list. -/
def dropApps : List Entry → List Entry
  | [] => []
  | e :: es => if e.isApplication then dropApps es else e :: dropApps es

/-- Number of Application entries in an entry list. -/
def countApps : List Entry → Nat
  | [] => 0
  | e :: es => (if e.isApplication then 1 else 0) + countApps es

/-- Modelled from the spec: `Description::removeApplication`. -/
def Description.removeApplication (d : Description) : Description :=
  { d with entries := dropApps d.entries }

/-- Modelled from the spec: `addMedia(Application)` / `addApplication` append
the new Application entry; a second Application "must be rejected or replace
the existing one, never silently duplicate" — the existing one is replaced. -/
def Description.addApplicationEntry (d : Description) (a : ApplicationEntry) : Description :=
  { d with entries := dropApps d.entries ++ [Entry.application a] }

/-- Modelled from the spec: `addMedia(Media)` appends a new owned Media entry. -/
def Description.addMediaEntry (d : Description) (m : MediaEntry) : Description :=
  { d with entries := d.entries ++ [Entry.media m] }

/-- Modelled from the spec: `Description::addApplication(mid)`; the header
declares the default argument `mid = "data"`. -/
def Description.addApplication (d : Description) (mid : String) : Description :=
  d.addApplicationEntry (ApplicationEntry.make mid)

/-- Modelled from the spec: `Description::addAudio(mid, dir)`; header default
arguments `mid = "audio"`, `dir = Direction::SendOnly`. -/
def Description.addAudio (d : Description) (mid : String) (dirn : Direction) : Description :=
  d.addMediaEntry (Audio.make mid dirn)

/-- Modelled from the spec: `Description::addVideo(mid, dir)`; header default
arguments `mid = "video"`, `dir = Direction::SendOnly`. -/
def Description.addVideo (d : Description) (mid : String) (dirn : Direction) : Description :=
  d.addMediaEntry (Video.make mid dirn)

/-- `Description::addApplication()` called with its header default argument. -/
def Description.addApplicationDefault (d : Description) : Description :=
  d.addApplication "data"

/-- `Description::addAudio()` called with its header default arguments. -/
def Description.addAudioDefault (d : Description) : Description :=
  d.addAudio "audio" Direction.SendOnly

/-- `Description::addVideo()` called with its header default arguments. -/
def Description.addVideoDefault (d : Description) : Description :=
  d.addVideo "video" Direction.SendOnly

/-- `ApplicationEntry.make` at its header default argument `mid = "data"`. -/
def ApplicationEntry.makeDefault : ApplicationEntry :=
  ApplicationEntry.make "data"

/-- `Audio.make` at its header default arguments. -/
def Audio.makeDefault : MediaEntry :=
  Audio.make "audio" Direction.SendOnly

/-- `Video.make` at its header default arguments. -/
def Video.makeDefault : MediaEntry :=
  Video.make "video" Direction.SendOnly

/-- Modelled from the spec: `Description::addCandidate` appends. -/
def Description.addCandidate (d : Description) (c : String) : Description :=
  { d with candidates := d.candidates ++ [c] }

/-- Modelled from the spec: `Description::addCandidates` appends all. -/
def Description.addCandidates (d : Description) (cs : List String) : Description :=
  { d with candidates := d.candidates ++ cs }

/-- Modelled from the spec: `Description::endCandidates` sets the terminal flag
once; subsequent calls are no-ops. -/
def Description.endCandidates (d : Description) : Description :=
  { d with ended := true }

/-- Modelled from the spec: `Description::extractCandidates` drains and returns
the entire candidate list, resetting it to empty. -/
def Description.extractCandidates (d : Description) : List String × Description :=
  (d.candidates, { d with candidates := [] })

/-- `Description::mediaCount()` = entries.size() (spec invariant). -/
def Description.mediaCount (d : Description) : Nat :=
  d.entries.length

/-- Modelled from the spec: `Description::hintType` sets the type when it is
still unspecified. -/
def Description.hintType (d : Description) (t : DType) : Description :=
  if d.type = DType.Unspec then { d with type := t } else d

/-- Modelled from the spec: `Description::setFingerprint`. -/
def Description.setFingerprint (d : Description) (f : String) : Description :=
  { d with fingerprint := some f }

/-- Modelled from the spec: `Description::stringToType` converts the literal
tokens "offer"/"answer"/"pranswer"/"rollback" to the enum; an unrecognized
token yields `Unspec`. -/
def Description.stringToType (s : String) : DType :=
  if s = "offer" then DType.Offer
  else if s = "answer" then DType.Answer
  else if s = "pranswer" then DType.Pranswer
  else if s = "rollback" then DType.Rollback
  else DType.Unspec

/-- Modelled from the spec: `Description::typeToString` — the inverse token
mapping. -/
def Description.typeToString : DType → String
  | .Unspec => ""
  | .Offer => "offer"
  | .Answer => "answer"
  | .Pranswer => "pranswer"
  | .Rollback => "rollback"

/-! ## SDP generation (modelled from the spec, sections 4.2–4.5 and 6) -/

/-- Concatenation of the per-section line lists. -/
def linesJoin : List (List SdpLine) → List SdpLine
  | [] => []
  | l :: ls => l ++ linesJoin ls

/-- Zero-or-one line for an optional string-valued session field. -/
def optLines (f : String → SdpLine) : Option String → List SdpLine
  | none => []
  | some v => [f v]

/-- Zero-or-one line for an optional numeric field. -/
def optNatLines (f : Nat → SdpLine) : Option Nat → List SdpLine
  | none => []
  | some v => [f v]

/-- The direction attribute line, emitted only when the direction is known. -/
def dirLines (dirn : Direction) : List SdpLine :=
  if dirn = Direction.Unknown then [] else [SdpLine.dirAttr dirn]

/-- The `b=AS` line, emitted only when the bitrate has been set (`mBas >= 0`). -/
def bitrateLines (b : Int) : List SdpLine :=
  if 0 ≤ b then [SdpLine.bitrate b.toNat] else []

/-- Modelled from the spec: the lines one RTPMap contributes — its `a=rtpmap`
line followed by its `a=rtcp-fb` and `a=fmtp` lines. -/
def RTPMap.sdpLines (r : RTPMap) : List SdpLine :=
  SdpLine.rtpmap r.pt r.format r.clockRate r.encParams ::
    (r.rtcpFbs.map (SdpLine.rtcpFb r.pt) ++ r.fmtps.map (SdpLine.fmtp r.pt))

/-- All `a=rtpmap`/`a=rtcp-fb`/`a=fmtp` lines of a media section. -/
def rtpLines (maps : List RTPMap) : List SdpLine :=
  linesJoin (maps.map RTPMap.sdpLines)

/-- The `a=ssrc` lines of a media section. -/
def ssrcLines (ss : List (Nat × Option String)) : List SdpLine :=
  ss.map fun p => SdpLine.ssrc p.1 p.2

/-- Modelled from the spec: `Application::generateSdpLines` — the SCTP port and
max-message-size attributes, each only when set. -/
def ApplicationEntry.generateSdpLines (a : ApplicationEntry) : List SdpLine :=
  optNatLines SdpLine.sctpPort a.sctpPort
    ++ optNatLines SdpLine.maxMessageSize a.maxMessageSize

/-- Modelled from the spec: `Media::generateSdpLines` — `b=AS` when set, then
the RTPMap lines, then the SSRC lines. -/
def MediaEntry.generateSdpLines (m : MediaEntry) : List SdpLine :=
  bitrateLines m.bitrate ++ rtpLines m.rtpMap ++ ssrcLines m.ssrcs

/-- Modelled from the spec: the `m=` payload of `Application::description()`
(protocol id and port for the data channel). The concrete token content is
immaterial to the model; the media-type token is always "application". -/
def appDescr : String := "9 UDP/DTLS/SCTP webrtc-datachannel"

/-- Modelled from the spec: `Entry::generateSdp` after the `m=` line — the
`a=mid` line, the direction line when the direction is known, the
subtype-specific lines, then the preserved opaque attribute lines verbatim. -/
def Entry.body : Entry → List SdpLine
  | .application a =>
      SdpLine.amid a.mid :: (dirLines a.direction
        ++ a.generateSdpLines ++ a.attributes)
  | .media m =>
      SdpLine.amid m.mid :: (dirLines m.direction
        ++ SdpLine.connection :: (m.generateSdpLines ++ m.attributes))

/-- Modelled from the spec: `Entry::generateSdp` — the `m=` line built from the
media type and description, followed by the section body. -/
def Entry.generateSdp : Entry → List SdpLine
  | .application a => SdpLine.mline "application" appDescr :: Entry.body (.application a)
  | .media m => SdpLine.mline m.type m.descr :: Entry.body (.media m)

/-- The candidate lines: each candidate in order, then the end-of-candidates
marker only if `ended` is true. -/
def candidateLines (d : Description) : List SdpLine :=
  d.candidates.map SdpLine.candidate
    ++ (if d.ended then [SdpLine.endOfCandidates] else [])

/-- Modelled from the spec: the session-level lines of
`Description::generateSdp` — version, origin (username/sessionId), session
name/time placeholders, the BUNDLE group when more than one entry exists, then
the optional ICE credential and fingerprint lines. -/
def Description.sessionLines (d : Description) : List SdpLine :=
  [SdpLine.version, SdpLine.origin d.username d.sessionId,
    SdpLine.sessionName, SdpLine.sessionTime]
    ++ (if 1 < d.entries.length then [SdpLine.bundle (d.entries.map Entry.mid)] else [])
    ++ optLines SdpLine.iceUfrag d.iceUfrag
    ++ optLines SdpLine.icePwd d.icePwd
    ++ optLines SdpLine.fingerprint d.fingerprint

/-- Modelled from the spec: the per-section lines — each entry's section in
list order, with the candidate lines attached to the first entry's section
(the entry that owns the bundled transport); with no entries the candidate
lines stand alone. -/
def Description.entriesLines (d : Description) : List SdpLine :=
  match d.entries with
  | [] => candidateLines d
  | e :: rest => e.generateSdp ++ candidateLines d
      ++ linesJoin (rest.map Entry.generateSdp)

/-- Modelled from the spec: `Description::generateSdp` — session-level lines
followed by every entry's section. -/
def Description.generateSdp (d : Description) : List SdpLine :=
  d.sessionLines ++ d.entriesLines

/-! ## SDP parsing (modelled from the spec, section 4.1) -/

/-- Attribute lines an Application section does not recognize: they fall
through `Application::parseSdpLine` and `Entry::parseSdpLine` and are preserved
verbatim in the entry's attribute list. -/
def SdpLine.appOpaque : SdpLine → Bool
  | .rtpmap _ _ _ _ => true
  | .rtcpFb _ _ => true
  | .fmtp _ _ => true
  | .ssrc _ _ => true
  | .bundle _ => true
  | .otherAttr _ => true
  | _ => false

/-- Attribute lines a Media section does not recognize: preserved verbatim. -/
def SdpLine.mediaOpaque : SdpLine → Bool
  | .sctpPort _ => true
  | .maxMessageSize _ => true
  | .bundle _ => true
  | .otherAttr _ => true
  | _ => false

/-- Insert-or-update on the RTPMap collection keyed by payload type: when the
payload type is present its entry is updated, otherwise a fresh RTPMap is
created first (`getFormat` "locate, creating on first access"). -/
def updateByPt (l : List RTPMap) (pt : Nat) (f : RTPMap → RTPMap) : List RTPMap :=
  if l.any (fun r => r.pt == pt) then l.map fun r => if r.pt = pt then f r else r
  else l ++ [f (RTPMap.make pt "" 0 "")]

/-- Modelled from the spec: `Media::parseSdpLine` — recognizes `a=mid`, the
direction tokens, `b=AS`, `a=rtpmap`, `a=rtcp-fb`, `a=fmtp` (routed to the
RTPMap with that payload type) and `a=ssrc`; any other attribute line is
preserved verbatim; non-attribute lines are ignored. -/
def MediaEntry.parseSdpLine (m : MediaEntry) (l : SdpLine) : MediaEntry :=
  match l with
  | .amid mid => { m with mid := mid }
  | .dirAttr dd => { m with direction := dd }
  | .bitrate n => { m with bitrate := (n : Int) }
  | .rtpmap pt fm cr ep =>
      { m with rtpMap := updateByPt m.rtpMap pt fun r =>
          { r with format := fm, clockRate := cr, encParams := ep } }
  | .rtcpFb pt mech =>
      { m with rtpMap := updateByPt m.rtpMap pt fun r =>
          { r with rtcpFbs := r.rtcpFbs ++ [mech] } }
  | .fmtp pt params =>
      { m with rtpMap := updateByPt m.rtpMap pt fun r =>
          { r with fmtps := r.fmtps ++ [params] } }
  | .ssrc id name => { m with ssrcs := m.ssrcs ++ [(id, name)] }
  | l => if l.mediaOpaque then { m with attributes := m.attributes ++ [l] } else m

/-- Modelled from the spec: `Application::parseSdpLine` — recognizes `a=mid`,
the direction tokens, `a=sctp-port` and the max-message-size attribute; any
other attribute line is preserved verbatim; non-attribute lines are ignored. -/
def ApplicationEntry.parseSdpLine (a : ApplicationEntry) (l : SdpLine) : ApplicationEntry :=
  match l with
  | .amid mid => { a with mid := mid }
  | .dirAttr dd => { a with direction := dd }
  | .sctpPort p => { a with sctpPort := some p }
  | .maxMessageSize n => { a with maxMessageSize := some n }
  | l => if l.appOpaque then { a with attributes := a.attributes ++ [l] } else a

/-- Dispatch of a section line to the active entry's parser. -/
def Entry.parseSdpLine (e : Entry) (l : SdpLine) : Entry :=
  match e with
  | .application a => .application (a.parseSdpLine l)
  | .media m => .media (m.parseSdpLine l)

/-- Replace the last (active) entry of the list by its update. -/
def modifyLastE : List Entry → (Entry → Entry) → List Entry
  | [], _ => []
  | [e], f => [f e]
  | e :: e2 :: es, f => e :: modifyLastE (e2 :: es) f

/-- Lines that are neither intercepted by the Description (candidates,
end-of-candidates, ICE credentials, fingerprint) nor open a new section
(`m=`) nor the origin line: they are handed to the active entry. -/
def SdpLine.entryLevel : SdpLine → Bool
  | .candidate _ => false
  | .endOfCandidates => false
  | .iceUfrag _ => false
  | .icePwd _ => false
  | .fingerprint _ => false
  | .origin _ _ => false
  | .mline _ _ => false
  | _ => true

/-- Modelled from the spec: the fresh Description produced by the constructor
before any line is consumed — the explicit type/role hints, placeholder
username and session id (regenerated when absent from input), no session
fields, no entries, no candidates. -/
def Description.init (t : DType) (r : Role) : Description :=
  { type := t, role := r, username := "rtc", sessionId := "0",
    iceUfrag := none, icePwd := none, fingerprint := none,
    entries := [], candidates := [], ended := false }

/-- Modelled from the spec: consuming one classified SDP line.
Candidate lines and the end-of-candidates marker are intercepted by the
Description itself; ICE credential and fingerprint attribute lines fold up to
session scope from either scope; the origin line populates username/sessionId
at session scope; an `m=` line opens a new section via `createEntry` (the
"application" token selects the Application subtype, replacing any existing
Application, anything else a plain Media; the mid starts as the section index
until an `a=mid` line is seen); every other line is handed to the active
entry's parser, or ignored at session scope. -/
def Description.parseLine (d : Description) (l : SdpLine) : Description :=
  match l with
  | .candidate c => { d with candidates := d.candidates ++ [c] }
  | .endOfCandidates => { d with ended := true }
  | .iceUfrag v => { d with iceUfrag := some v }
  | .icePwd v => { d with icePwd := some v }
  | .fingerprint v => { d with fingerprint := some v }
  | .origin u s =>
      if d.entries.isEmpty then { d with username := u, sessionId := s } else d
  | .mline mtype mdescr =>
      if mtype = "application" then
        { d with entries := dropApps d.entries
            ++ [Entry.application (ApplicationEntry.make (toString d.entries.length))] }
      else
        { d with entries := d.entries
            ++ [Entry.media (MediaEntry.make mtype mdescr
                  (toString d.entries.length) Direction.Unknown)] }
  | l =>
      if d.entries.isEmpty then d
      else { d with entries := modifyLastE d.entries fun e => e.parseSdpLine l }

/-- Modelled from the spec: the `Description` constructor — folds the
classified lines of the input over `parseLine`, starting from the explicit
type/role hints. -/
def Description.parse (lines : List SdpLine) (t : DType) (r : Role) : Description :=
  lines.foldl Description.parseLine (Description.init t r)

/-! ## Well-formedness of programmatically built descriptions -/

/-- Well-formedness of a Media entry, satisfied by every programmatically
built one: its media-type token is not "application" (that token is reserved
for the Application subtype), its RTPMap keys are unique (the collection is a
map), its bitrate is either unset (-1) or set (nonnegative), and its preserved
attribute lines are opaque ones. -/
def MediaEntry.Wf (m : MediaEntry) : Prop :=
  m.type ≠ "application" ∧ (m.rtpMap.map RTPMap.pt).Nodup
    ∧ (m.bitrate = -1 ∨ 0 ≤ m.bitrate)
    ∧ ∀ l ∈ m.attributes, l.mediaOpaque = true

/-- Well-formedness of an entry. -/
def Entry.Wf : Entry → Prop
  | .application a => ∀ l ∈ a.attributes, l.appOpaque = true
  | .media m => m.Wf

/-- Well-formedness of a Description, satisfied by every programmatically
built one: every entry is well formed and at most one entry is the
Application (spec invariant). -/
def Description.Wf (d : Description) : Prop :=
  (∀ e ∈ d.entries, e.Wf) ∧ countApps d.entries ≤ 1

instance (m : MediaEntry) : Decidable m.Wf := by
  unfold MediaEntry.Wf; infer_instance

instance (e : Entry) : Decidable e.Wf := by
  cases e <;> unfold Entry.Wf <;> infer_instance

instance (d : Description) : Decidable d.Wf := by
  unfold Description.Wf; infer_instance

/-! ## Possible operations on a Description

The public mutating surface of the header, closed into one operation type so
that "every sequence of operations" can be quantified over. -/

/-- Modelled from the spec: `Entry::setDirection`, the single mutator for the
negotiated direction. -/
def Entry.setDirection (e : Entry) (dirn : Direction) : Entry :=
  match e with
  | .application a => .application { a with direction := dirn }
  | .media m => .media { m with direction := dirn }

/-- Apply a Media update through the tagged accessor `media(index)`: an
Application entry is untouched. -/
def Entry.modifyMedia (f : MediaEntry → MediaEntry) : Entry → Entry
  | .media m => .media (f m)
  | e => e

/-- Apply an Application update through the `application()` accessor: a Media
entry is untouched. -/
def Entry.modifyApp (f : ApplicationEntry → ApplicationEntry) : Entry → Entry
  | .application a => .application (f a)
  | e => e

/-- Update the entry at one index of the entry list. -/
def modifyEntryAtL : List Entry → Nat → (Entry → Entry) → List Entry
  | [], _, _ => []
  | e :: es, 0, f => f e :: es
  | e :: es, i + 1, f => e :: modifyEntryAtL es i f

/-- One public mutating operation on a Description. -/
inductive Op
  | addApplication (mid : String)
  | addAudio (mid : String) (dirn : Direction)
  | addVideo (mid : String) (dirn : Direction)
  | addMediaM (m : MediaEntry)
  | addMediaA (a : ApplicationEntry)
  | addCandidate (c : String)
  | addCandidates (cs : List String)
  | endCandidates
  | extractCandidates
  | removeApplication
  | hintType (t : DType)
  | setFingerprint (f : String)
  | setDirectionAt (i : Nat) (dirn : Direction)
  | modifyMediaAt (i : Nat) (f : MediaEntry → MediaEntry)
  | modifyApplication (f : ApplicationEntry → ApplicationEntry)

/-- The effect of one operation. -/
def Op.apply (d : Description) : Op → Description
  | .addApplication mid => d.addApplication mid
  | .addAudio mid dirn => d.addAudio mid dirn
  | .addVideo mid dirn => d.addVideo mid dirn
  | .addMediaM m => d.addMediaEntry m
  | .addMediaA a => d.addApplicationEntry a
  | .addCandidate c => d.addCandidate c
  | .addCandidates cs => d.addCandidates cs
  | .endCandidates => d.endCandidates
  | .extractCandidates => (d.extractCandidates).2
  | .removeApplication => d.removeApplication
  | .hintType t => d.hintType t
  | .setFingerprint f => d.setFingerprint f
  | .setDirectionAt i dirn =>
      { d with entries := modifyEntryAtL d.entries i fun e => e.setDirection dirn }
  | .modifyMediaAt i f =>
      { d with entries := modifyEntryAtL d.entries i (Entry.modifyMedia f) }
  | .modifyApplication f =>
      { d with entries := d.entries.map (Entry.modifyApp f) }

/-- A whole operation sequence. -/
def applyOps (d : Description) (ops : List Op) : Description :=
  ops.foldl Op.apply d

/-- A concrete programmatically built Description: a data channel, a video
section with one codec and one SSRC, one trickled candidate, candidates
ended. -/
def sampleVP8 : RTPMap :=
  { pt := 96, format := "VP8", clockRate := 90000, encParams := "",
    rtcpFbs := ["nack"], fmtps := [] }

def roundTripSample : Description :=
  let d := (Description.init DType.Offer Role.ActPass).addApplication "data"
  let d := d.addVideo "video" Direction.SendOnly
  let d := Op.apply d (Op.modifyMediaAt 1 fun m =>
    (m.addRTPMap sampleVP8).addSSRC 42 (some "v"))
  (d.addCandidate "candidate-1").endCandidates

/-! ## Theorems: the simpler claims -/

/-- **C3.** For every Media entry `m`, `m.reciprocate()` returns a new Media
with the same mid and the same RTPMap set as `m`, and with direction mapped
by: SendOnly becomes RecvOnly, RecvOnly becomes SendOnly, SendRecv stays
SendRecv, Inactive stays Inactive. -/
theorem media_reciprocate_flips_direction (m : MediaEntry) :
    (m.reciprocate).mid = m.mid ∧ (m.reciprocate).rtpMap = m.rtpMap ∧
      (m.reciprocate).direction =
        (match m.direction with
          | Direction.SendOnly => Direction.RecvOnly
          | Direction.RecvOnly => Direction.SendOnly
          | d => d) := by
  refine ⟨rfl, rfl, ?_⟩
  show m.direction.reciprocated = _
  cases m.direction <;> rfl

/-- **C4.** `extractCandidates()` returns the entire current candidate list and
resets the stored list to empty: an immediately subsequent call returns an
empty sequence, and `mediaCount()` and the entry list are unchanged by either
call. -/
theorem extractCandidates_drains (d : Description) :
    (d.extractCandidates).1 = d.candidates ∧
      ((d.extractCandidates).2.extractCandidates).1 = [] ∧
      (d.extractCandidates).2.entries = d.entries ∧
      ((d.extractCandidates).2.extractCandidates).2.entries = d.entries ∧
      (d.extractCandidates).2.mediaCount = d.mediaCount ∧
      ((d.extractCandidates).2.extractCandidates).2.mediaCount = d.mediaCount :=
  ⟨rfl, rfl, rfl, rfl, rfl, rfl⟩

/-- **C5.** Calling `endCandidates()` twice leaves `ended()` true and leaves
the candidate list and all other observable state unchanged relative to the
state after the first call: the second call is a no-op on the whole state. -/
theorem endCandidates_idempotent (d : Description) :
    (d.endCandidates).ended = true ∧
      d.endCandidates.endCandidates = d.endCandidates :=
  ⟨rfl, rfl⟩

/-- **C6.** `hintSctpPort(p)` sets `sctpPort()` to `p` only when it was
previously unset; if `sctpPort()` already held `v`, it is left equal to `v`
(first-hint-wins). -/
theorem hintSctpPort_first_hint_wins (a : ApplicationEntry) (p : Nat) :
    (a.sctpPort = none → (a.hintSctpPort p).sctpPort = some p) ∧
      ∀ v, a.sctpPort = some v → (a.hintSctpPort p).sctpPort = some v := by
  constructor
  · intro h
    simp [ApplicationEntry.hintSctpPort, h]
  · intro v h
    simp [ApplicationEntry.hintSctpPort, h]

/-- Witness for C6: on an entry with no port the hint sets 5000, and on an
entry already holding 4000 the hint of 5000 leaves 4000. -/
theorem hintSctpPort_first_hint_wins_witness :
    ((ApplicationEntry.make "data").hintSctpPort 5000).sctpPort = some 5000 ∧
      (((ApplicationEntry.make "data").setSctpPort 4000).hintSctpPort 5000).sctpPort
        = some 4000 :=
  ⟨(hintSctpPort_first_hint_wins (ApplicationEntry.make "data") 5000).1 rfl,
    (hintSctpPort_first_hint_wins
      ((ApplicationEntry.make "data").setSctpPort 4000) 5000).2 4000 rfl⟩

/-- **C7.** `replaceSSRC(oldSSRC, ssrc, name)` replaces `oldSSRC` by `ssrc` in
the SSRC list (for any supplied name), and when no new name is supplied (empty
`name`) each replaced SSRC keeps the name previously associated with it. -/
theorem replaceSSRC_preserves_name (m : MediaEntry) (oldSSRC s : Nat) :
    (∀ name, ((m.replaceSSRC oldSSRC s name).ssrcs).map Prod.fst
        = m.ssrcs.map fun p => if p.1 = oldSSRC then s else p.1) ∧
      (m.replaceSSRC oldSSRC s "").ssrcs
        = m.ssrcs.map fun p => if p.1 = oldSSRC then (s, p.2) else p := by
  constructor
  · intro name
    simp only [MediaEntry.replaceSSRC, List.map_map]
    refine List.map_congr_left fun p _ => ?_
    by_cases h : p.1 = oldSSRC <;> simp [h]
  · simp only [MediaEntry.replaceSSRC, String.isEmpty_iff]
    rfl

/-- **C8.** `stringToType` maps the tokens "offer", "answer", "pranswer",
"rollback" to the corresponding Type values and every other string to
`Unspec`. -/
theorem stringToType_tokens :
    Description.stringToType "offer" = DType.Offer ∧
      Description.stringToType "answer" = DType.Answer ∧
      Description.stringToType "pranswer" = DType.Pranswer ∧
      Description.stringToType "rollback" = DType.Rollback ∧
      ∀ s, s ≠ "offer" → s ≠ "answer" → s ≠ "pranswer" → s ≠ "rollback" →
        Description.stringToType s = DType.Unspec := by
  refine ⟨by decide, by decide, by decide, by decide, ?_⟩
  intro s h1 h2 h3 h4
  simp [Description.stringToType, h1, h2, h3, h4]

/-- Witness for C8: the unrecognized token "foo" maps to `Unspec`. -/
theorem stringToType_tokens_witness :
    Description.stringToType "foo" = DType.Unspec :=
  stringToType_tokens.2.2.2.2 "foo" (by decide) (by decide) (by decide) (by decide)

/-- **C9.** `setSctpPort(p)` unconditionally sets `sctpPort()` to `p`,
overwriting any previously set or hinted value. -/
theorem setSctpPort_overwrites (a : ApplicationEntry) (p : Nat) :
    (a.setSctpPort p).sctpPort = some p :=
  rfl

/-- **C10.** Entries constructed without explicit arguments get the header's
fixed defaults: Application gets mid "data"; Audio gets mid "audio" and
direction SendOnly; Video gets mid "video" and direction SendOnly; and the
default-argument calls of `addApplication`/`addAudio`/`addVideo` append an
entry with those same defaults. -/
theorem construction_defaults :
    ApplicationEntry.makeDefault.mid = "data" ∧
      Audio.makeDefault.mid = "audio" ∧
      Audio.makeDefault.direction = Direction.SendOnly ∧
      Video.makeDefault.mid = "video" ∧
      Video.makeDefault.direction = Direction.SendOnly ∧
      ∀ d : Description,
        (d.addApplicationDefault).entries.getLast?
            = some (Entry.application (ApplicationEntry.make "data")) ∧
          (d.addAudioDefault).entries.getLast?
            = some (Entry.media (Audio.make "audio" Direction.SendOnly)) ∧
          (d.addVideoDefault).entries.getLast?
            = some (Entry.media (Video.make "video" Direction.SendOnly)) := by
  refine ⟨rfl, rfl, rfl, rfl, rfl, fun d => ⟨?_, ?_, ?_⟩⟩ <;>
    simp [Description.addApplicationDefault, Description.addAudioDefault,
      Description.addVideoDefault, Description.addApplication,
      Description.addAudio, Description.addVideo,
      Description.addApplicationEntry, Description.addMediaEntry,
      List.getLast?_concat]

/-! ## The single-Application invariant (C2) -/

theorem countApps_append (l1 l2 : List Entry) :
    countApps (l1 ++ l2) = countApps l1 + countApps l2 := by
  induction l1 with
  | nil => simp [countApps]
  | cons e es ih => simp [countApps, ih]; omega

theorem countApps_dropApps (l : List Entry) : countApps (dropApps l) = 0 := by
  induction l with
  | nil => rfl
  | cons e es ih =>
      by_cases h : e.isApplication = true <;> simp [dropApps, countApps, h, ih]

theorem countApps_modifyEntryAtL (l : List Entry) (i : Nat) (f : Entry → Entry)
    (hf : ∀ e, (f e).isApplication = e.isApplication) :
    countApps (modifyEntryAtL l i f) = countApps l := by
  induction l generalizing i with
  | nil => rfl
  | cons e es ih =>
      cases i with
      | zero => simp [modifyEntryAtL, countApps, hf]
      | succ j => simp [modifyEntryAtL, countApps, ih]

theorem countApps_map (l : List Entry) (f : Entry → Entry)
    (hf : ∀ e, (f e).isApplication = e.isApplication) :
    countApps (l.map f) = countApps l := by
  induction l with
  | nil => rfl
  | cons e es ih => simp [countApps, hf, ih]

theorem countApps_modifyLastE (f : Entry → Entry)
    (hf : ∀ e, (f e).isApplication = e.isApplication) :
    ∀ l : List Entry, countApps (modifyLastE l f) = countApps l
  | [] => rfl
  | [e] => by simp [modifyLastE, countApps, hf]
  | e :: e2 :: es => by
      simp [modifyLastE, countApps, countApps_modifyLastE f hf (e2 :: es)]

theorem isApplication_setDirection (e : Entry) (dirn : Direction) :
    (e.setDirection dirn).isApplication = e.isApplication := by
  cases e <;> rfl

theorem isApplication_modifyMedia (f : MediaEntry → MediaEntry) (e : Entry) :
    (Entry.modifyMedia f e).isApplication = e.isApplication := by
  cases e <;> rfl

theorem isApplication_modifyApp (f : ApplicationEntry → ApplicationEntry) (e : Entry) :
    (Entry.modifyApp f e).isApplication = e.isApplication := by
  cases e <;> rfl

theorem isApplication_parseSdpLine (e : Entry) (l : SdpLine) :
    (e.parseSdpLine l).isApplication = e.isApplication := by
  cases e <;> rfl

theorem addApplication_countApps (d : Description) (mid : String) :
    countApps (d.addApplication mid).entries = 1 := by
  simp [Description.addApplication, Description.addApplicationEntry,
    countApps_append, countApps_dropApps, countApps, Entry.isApplication]

theorem parseLine_countApps (d : Description) (l : SdpLine)
    (h : countApps d.entries ≤ 1) : countApps (d.parseLine l).entries ≤ 1 := by
  cases l <;>
    simp only [Description.parseLine] <;>
    try exact h
  case origin u s =>
    by_cases he : d.entries.isEmpty <;> simp [he, h]
  case mline mtype mdescr =>
    by_cases ht : mtype = "application"
    · simp [ht, countApps_append, countApps_dropApps, countApps, Entry.isApplication]
    · simp [ht, countApps_append, countApps, Entry.isApplication]
      omega
  all_goals
    by_cases he : d.entries.isEmpty <;>
      simp [he, h, countApps_modifyLastE _ (fun e => isApplication_parseSdpLine e _)]

theorem parse_countApps (lines : List SdpLine) (t : DType) (r : Role) :
    countApps (Description.parse lines t r).entries ≤ 1 := by
  have main : ∀ (ls : List SdpLine) (d : Description), countApps d.entries ≤ 1 →
      countApps (ls.foldl Description.parseLine d).entries ≤ 1 := by
    intro ls
    induction ls with
    | nil => intro d h; exact h
    | cons l rest ih =>
        intro d h
        exact ih _ (parseLine_countApps d l h)
  exact main _ _ (by simp [Description.init, countApps])

theorem op_countApps (d : Description) (o : Op)
    (h : countApps d.entries ≤ 1) : countApps (Op.apply d o).entries ≤ 1 := by
  cases o <;>
    simp [Op.apply, Description.addApplication, Description.addApplicationEntry,
      Description.addMediaEntry, Description.addAudio, Description.addVideo,
      Description.addCandidate, Description.addCandidates,
      Description.endCandidates, Description.extractCandidates,
      Description.removeApplication, Description.hintType,
      Description.setFingerprint, countApps_append, countApps_dropApps,
      countApps, Entry.isApplication, h,
      countApps_modifyEntryAtL _ _ _ (fun e => isApplication_setDirection e _),
      countApps_modifyEntryAtL _ _ _ (isApplication_modifyMedia _),
      countApps_map _ _ (isApplication_modifyApp _)]
  case hintType t => by_cases ht : d.type = DType.Unspec <;> simp [ht, h]

theorem applyOps_countApps (ops : List Op) (d : Description)
    (h : countApps d.entries ≤ 1) : countApps (applyOps d ops).entries ≤ 1 := by
  induction ops generalizing d with
  | nil => exact h
  | cons o rest ih => exact ih _ (op_countApps d o h)

/-- **C2.** Every Description reachable from the public constructor (parsing
any line sequence under any type/role hints) through any sequence of public
operations has at most one Application entry; and after calling
`addApplication` twice on any such Description, exactly one Application-typed
entry exists — the second call replaces the first, never duplicating. -/
theorem single_application_invariant (lines : List SdpLine) (t : DType)
    (r : Role) (ops : List Op) (m1 m2 : String) :
    countApps (applyOps (Description.parse lines t r) ops).entries ≤ 1 ∧
      countApps (((applyOps (Description.parse lines t r) ops).addApplication
        m1).addApplication m2).entries = 1 :=
  ⟨applyOps_countApps ops _ (parse_countApps lines t r),
    addApplication_countApps _ m2⟩

/-! ## The generate/parse round trip (C1): candidate and entry-body folds -/

theorem foldl_parse_candidates (cs : List String) :
    ∀ d0 : Description,
      List.foldl Description.parseLine d0 (cs.map SdpLine.candidate)
        = { d0 with candidates := d0.candidates ++ cs } := by
  induction cs with
  | nil => intro d0; simp
  | cons c rest ih =>
      intro d0
      simp [Description.parseLine, ih]

theorem foldl_parse_candidateLines (dsrc d0 : Description) :
    List.foldl Description.parseLine d0 (candidateLines dsrc)
      = { d0 with
            candidates := d0.candidates ++ dsrc.candidates,
            ended := d0.ended || dsrc.ended } := by
  unfold candidateLines
  by_cases he : dsrc.ended <;>
    simp [he, List.foldl_append, foldl_parse_candidates, Description.parseLine]

theorem modifyLastE_concat (f : Entry → Entry) :
    ∀ (E : List Entry) (e : Entry), modifyLastE (E ++ [e]) f = E ++ [f e]
  | [], _ => rfl
  | [_], _ => rfl
  | e1 :: e2 :: es, e => by
      have ih := modifyLastE_concat f (e2 :: es) e
      simp only [List.cons_append] at ih ⊢
      simp [modifyLastE, ih]

theorem parseLine_entryLevel (d : Description) (l : SdpLine)
    (hl : l.entryLevel = true) (E : List Entry) (e0 : Entry)
    (hE : d.entries = E ++ [e0]) :
    d.parseLine l = { d with entries := E ++ [e0.parseSdpLine l] } := by
  have hne : d.entries.isEmpty = false := by rw [hE]; cases E <;> rfl
  have hmain : d.parseLine l
      = { d with entries := modifyLastE d.entries fun e => e.parseSdpLine l } := by
    cases l <;>
      first
        | (simp [Description.parseLine, hne]; done)
        | exact absurd hl (by simp [SdpLine.entryLevel])
  rw [hmain, hE, modifyLastE_concat]

theorem foldl_parse_entryLevel (ls : List SdpLine)
    (hall : ∀ l ∈ ls, l.entryLevel = true) :
    ∀ (d : Description) (E : List Entry) (e0 : Entry), d.entries = E ++ [e0] →
      List.foldl Description.parseLine d ls
        = { d with entries := E ++ [List.foldl Entry.parseSdpLine e0 ls] } := by
  induction ls with
  | nil => intro d E e0 hE; simp [← hE]
  | cons l rest ih =>
      intro d E e0 hE
      rw [List.foldl_cons, parseLine_entryLevel d l (hall l (by simp)) E e0 hE]
      simp only [List.foldl_cons]
      exact ih (fun x hx => hall x (by simp [hx])) _ E _ rfl

theorem foldl_entry_application (ls : List SdpLine) :
    ∀ a : ApplicationEntry,
      List.foldl Entry.parseSdpLine (Entry.application a) ls
        = Entry.application (List.foldl ApplicationEntry.parseSdpLine a ls) := by
  induction ls with
  | nil => intro a; rfl
  | cons l rest ih => intro a; simp only [List.foldl_cons]; exact ih _

theorem foldl_entry_media (ls : List SdpLine) :
    ∀ m : MediaEntry,
      List.foldl Entry.parseSdpLine (Entry.media m) ls
        = Entry.media (List.foldl MediaEntry.parseSdpLine m ls) := by
  induction ls with
  | nil => intro m; rfl
  | cons l rest ih => intro m; simp only [List.foldl_cons]; exact ih _

theorem foldl_app_attrs (attrs : List SdpLine)
    (hall : ∀ l ∈ attrs, l.appOpaque = true) :
    ∀ a0 : ApplicationEntry,
      List.foldl ApplicationEntry.parseSdpLine a0 attrs
        = { a0 with attributes := a0.attributes ++ attrs } := by
  induction attrs with
  | nil => intro a0; simp
  | cons l rest ih =>
      intro a0
      have hl : l.appOpaque = true := hall l (by simp)
      have step : a0.parseSdpLine l = { a0 with attributes := a0.attributes ++ [l] } := by
        cases l <;>
          first
            | (simp [ApplicationEntry.parseSdpLine, SdpLine.appOpaque]; done)
            | exact absurd hl (by simp [SdpLine.appOpaque])
      rw [List.foldl_cons, step, ih (fun x hx => hall x (by simp [hx]))]
      simp

theorem foldl_media_attrs (attrs : List SdpLine)
    (hall : ∀ l ∈ attrs, l.mediaOpaque = true) :
    ∀ m0 : MediaEntry,
      List.foldl MediaEntry.parseSdpLine m0 attrs
        = { m0 with attributes := m0.attributes ++ attrs } := by
  induction attrs with
  | nil => intro m0; simp
  | cons l rest ih =>
      intro m0
      have hl : l.mediaOpaque = true := hall l (by simp)
      have step : m0.parseSdpLine l = { m0 with attributes := m0.attributes ++ [l] } := by
        cases l <;>
          first
            | (simp [MediaEntry.parseSdpLine, SdpLine.mediaOpaque]; done)
            | exact absurd hl (by simp [SdpLine.mediaOpaque])
      rw [List.foldl_cons, step, ih (fun x hx => hall x (by simp [hx]))]
      simp

theorem foldl_media_ssrcs (ss : List (Nat × Option String)) :
    ∀ m0 : MediaEntry,
      List.foldl MediaEntry.parseSdpLine m0 (ssrcLines ss)
        = { m0 with ssrcs := m0.ssrcs ++ ss } := by
  induction ss with
  | nil => intro m0; simp [ssrcLines]
  | cons p rest ih =>
      intro m0
      simp only [ssrcLines, List.map_cons, List.foldl_cons]
      rw [show m0.parseSdpLine (SdpLine.ssrc p.1 p.2)
          = { m0 with ssrcs := m0.ssrcs ++ [p] } from rfl]
      rw [show (rest.map fun q => SdpLine.ssrc q.1 q.2) = ssrcLines rest from rfl, ih]
      simp

theorem any_pt_eq_false {acc : List RTPMap} {pt : Nat}
    (h : ∀ x ∈ acc, x.pt ≠ pt) :
    (acc.any fun r => r.pt == pt) = false := by
  induction acc with
  | nil => rfl
  | cons x xs ih =>
      simp only [List.any_cons, Bool.or_eq_false_iff]
      exact ⟨by simp [h x (by simp)], ih fun y hy => h y (by simp [hy])⟩

theorem map_update_skip (acc : List RTPMap) (pt : Nat) (f : RTPMap → RTPMap)
    (h : ∀ x ∈ acc, x.pt ≠ pt) :
    (acc.map fun r => if r.pt = pt then f r else r) = acc := by
  induction acc with
  | nil => rfl
  | cons x xs ih =>
      simp [if_neg (h x (by simp)), ih fun y hy => h y (by simp [hy])]

theorem updateByPt_fresh (acc : List RTPMap) (pt : Nat) (f : RTPMap → RTPMap)
    (h : ∀ x ∈ acc, x.pt ≠ pt) :
    updateByPt acc pt f = acc ++ [f (RTPMap.make pt "" 0 "")] := by
  simp [updateByPt, any_pt_eq_false h]

theorem updateByPt_last (acc : List RTPMap) (r0 : RTPMap) (pt : Nat)
    (f : RTPMap → RTPMap) (h : ∀ x ∈ acc, x.pt ≠ pt) (hr : r0.pt = pt) :
    updateByPt (acc ++ [r0]) pt f = acc ++ [f r0] := by
  have hany : ((acc ++ [r0]).any fun r => r.pt == pt) = true := by
    simp [List.any_append, hr]
  simp only [updateByPt, hany, if_true]
  rw [List.map_append, map_update_skip acc pt f h]
  simp [hr]

theorem foldl_media_fbs (pt : Nat) (fbs : List String) :
    ∀ (m : MediaEntry) (acc : List RTPMap) (r1 : RTPMap),
      m.rtpMap = acc ++ [r1] → (∀ x ∈ acc, x.pt ≠ pt) → r1.pt = pt →
      List.foldl MediaEntry.parseSdpLine m (fbs.map (SdpLine.rtcpFb pt))
        = { m with rtpMap := acc ++ [{ r1 with rtcpFbs := r1.rtcpFbs ++ fbs }] } := by
  induction fbs with
  | nil =>
      intro m acc r1 hm _ _
      simp [← hm]
  | cons fb rest ih =>
      intro m acc r1 hm hacc hr1
      have step : m.parseSdpLine (SdpLine.rtcpFb pt fb)
          = { m with rtpMap := acc ++ [{ r1 with rtcpFbs := r1.rtcpFbs ++ [fb] }] } := by
        simp [MediaEntry.parseSdpLine, hm, updateByPt_last acc r1 pt _ hacc hr1]
      rw [List.map_cons, List.foldl_cons, step,
        ih _ acc { r1 with rtcpFbs := r1.rtcpFbs ++ [fb] } rfl hacc hr1]
      simp

theorem foldl_media_fmtps (pt : Nat) (ps : List String) :
    ∀ (m : MediaEntry) (acc : List RTPMap) (r1 : RTPMap),
      m.rtpMap = acc ++ [r1] → (∀ x ∈ acc, x.pt ≠ pt) → r1.pt = pt →
      List.foldl MediaEntry.parseSdpLine m (ps.map (SdpLine.fmtp pt))
        = { m with rtpMap := acc ++ [{ r1 with fmtps := r1.fmtps ++ ps }] } := by
  induction ps with
  | nil =>
      intro m acc r1 hm _ _
      simp [← hm]
  | cons p rest ih =>
      intro m acc r1 hm hacc hr1
      have step : m.parseSdpLine (SdpLine.fmtp pt p)
          = { m with rtpMap := acc ++ [{ r1 with fmtps := r1.fmtps ++ [p] }] } := by
        simp [MediaEntry.parseSdpLine, hm, updateByPt_last acc r1 pt _ hacc hr1]
      rw [List.map_cons, List.foldl_cons, step,
        ih _ acc { r1 with fmtps := r1.fmtps ++ [p] } rfl hacc hr1]
      simp

theorem foldl_media_one_rtpmap (r : RTPMap) (m : MediaEntry)
    (hfresh : ∀ x ∈ m.rtpMap, x.pt ≠ r.pt) :
    List.foldl MediaEntry.parseSdpLine m r.sdpLines
      = { m with rtpMap := m.rtpMap ++ [r] } := by
  have step : m.parseSdpLine (SdpLine.rtpmap r.pt r.format r.clockRate r.encParams)
      = { m with rtpMap := m.rtpMap
          ++ [{ pt := r.pt, format := r.format, clockRate := r.clockRate,
                encParams := r.encParams, rtcpFbs := [], fmtps := [] }] } := by
    simp [MediaEntry.parseSdpLine, updateByPt_fresh _ _ _ hfresh, RTPMap.make]
  rw [RTPMap.sdpLines, List.foldl_cons, step, List.foldl_append]
  rw [foldl_media_fbs r.pt r.rtcpFbs _ m.rtpMap { pt := r.pt, format := r.format, clockRate := r.clockRate, encParams := r.encParams, rtcpFbs := [], fmtps := [] } rfl hfresh rfl]
  rw [foldl_media_fmtps r.pt r.fmtps _ m.rtpMap { pt := r.pt, format := r.format, clockRate := r.clockRate, encParams := r.encParams, rtcpFbs := [] ++ r.rtcpFbs, fmtps := [] } rfl hfresh rfl]
  simp

theorem foldl_media_rtpmaps (maps : List RTPMap) :
    ∀ m : MediaEntry, ((m.rtpMap ++ maps).map RTPMap.pt).Nodup →
      List.foldl MediaEntry.parseSdpLine m (rtpLines maps)
        = { m with rtpMap := m.rtpMap ++ maps } := by
  induction maps with
  | nil => intro m _; simp [rtpLines, linesJoin]
  | cons r rest ih =>
      intro m hnodup
      have hfresh : ∀ x ∈ m.rtpMap, x.pt ≠ r.pt := by
        intro x hx heq
        rw [List.map_append, List.map_cons, List.nodup_append] at hnodup
        have hx1 : x.pt ∈ m.rtpMap.map RTPMap.pt := List.mem_map_of_mem _ hx
        have hx2 : x.pt ∈ r.pt :: rest.map RTPMap.pt := by rw [heq]; simp
        exact hnodup.2.2 hx1 hx2
      have h2 : ((({ m with rtpMap := m.rtpMap ++ [r] } : MediaEntry).rtpMap
          ++ rest).map RTPMap.pt).Nodup := by
        show ((m.rtpMap ++ [r] ++ rest).map RTPMap.pt).Nodup
        rw [show m.rtpMap ++ [r] ++ rest = m.rtpMap ++ r :: rest by simp]
        exact hnodup
      have hjoin : rtpLines (r :: rest) = r.sdpLines ++ rtpLines rest := rfl
      rw [hjoin, List.foldl_append, foldl_media_one_rtpmap r m hfresh, ih _ h2]
      simp

/-! ## The generate/parse round trip (C1): section assembly -/

theorem mem_linesJoin {l : SdpLine} :
    ∀ {Ls : List (List SdpLine)}, l ∈ linesJoin Ls ↔ ∃ L ∈ Ls, l ∈ L := by
  intro Ls
  induction Ls with
  | nil => simp [linesJoin]
  | cons L rest ih => simp [linesJoin, List.mem_append, ih]

theorem appOpaque_entryLevel {l : SdpLine} (h : l.appOpaque = true) :
    l.entryLevel = true := by
  cases l <;> simp_all [SdpLine.appOpaque, SdpLine.entryLevel]

theorem mediaOpaque_entryLevel {l : SdpLine} (h : l.mediaOpaque = true) :
    l.entryLevel = true := by
  cases l <;> simp_all [SdpLine.mediaOpaque, SdpLine.entryLevel]

theorem dirLines_entryLevel (dd : Direction) :
    ∀ l ∈ dirLines dd, l.entryLevel = true := by
  intro l hl
  unfold dirLines at hl
  split at hl
  · simp at hl
  · simp at hl; subst hl; rfl

theorem optNatLines_entryLevel (f : Nat → SdpLine)
    (hf : ∀ n, (f n).entryLevel = true) (o : Option Nat) :
    ∀ l ∈ optNatLines f o, l.entryLevel = true := by
  intro l hl
  cases o with
  | none => simp [optNatLines] at hl
  | some v => simp [optNatLines] at hl; subst hl; exact hf v

theorem bitrateLines_entryLevel (b : Int) :
    ∀ l ∈ bitrateLines b, l.entryLevel = true := by
  intro l hl
  unfold bitrateLines at hl
  split at hl
  · simp at hl; subst hl; rfl
  · simp at hl

theorem rtpLines_entryLevel (maps : List RTPMap) :
    ∀ l ∈ rtpLines maps, l.entryLevel = true := by
  intro l hl
  rw [rtpLines, mem_linesJoin] at hl
  obtain ⟨L, hL, hlL⟩ := hl
  rw [List.mem_map] at hL
  obtain ⟨r, _, rfl⟩ := hL
  simp only [RTPMap.sdpLines, List.mem_cons, List.mem_append, List.mem_map] at hlL
  rcases hlL with rfl | ⟨x, _, rfl⟩ | ⟨x, _, rfl⟩ <;> rfl

theorem ssrcLines_entryLevel (ss : List (Nat × Option String)) :
    ∀ l ∈ ssrcLines ss, l.entryLevel = true := by
  intro l hl
  rw [ssrcLines, List.mem_map] at hl
  obtain ⟨p, _, rfl⟩ := hl
  rfl

theorem body_entryLevel (e : Entry) (he : e.Wf) :
    ∀ l ∈ Entry.body e, l.entryLevel = true := by
  cases e with
  | application a =>
      have ha : ∀ l ∈ a.attributes, l.appOpaque = true := he
      intro l hl
      simp only [Entry.body, ApplicationEntry.generateSdpLines, List.mem_cons,
        List.mem_append] at hl
      rcases hl with rfl | ((hl | (hl | hl)) | hl)
      · rfl
      · exact dirLines_entryLevel _ l hl
      · exact optNatLines_entryLevel SdpLine.sctpPort (fun n => rfl) _ l hl
      · exact optNatLines_entryLevel SdpLine.maxMessageSize (fun n => rfl) _ l hl
      · exact appOpaque_entryLevel (ha l hl)
  | media m =>
      have hm : m.Wf := he
      intro l hl
      simp only [Entry.body, MediaEntry.generateSdpLines, List.mem_cons,
        List.mem_append] at hl
      rcases hl with rfl | (hl | (rfl | (((hl | hl) | hl) | hl)))
      · rfl
      · exact dirLines_entryLevel _ l hl
      · rfl
      · exact bitrateLines_entryLevel _ l hl
      · exact rtpLines_entryLevel _ l hl
      · exact ssrcLines_entryLevel _ l hl
      · exact mediaOpaque_entryLevel (hm.2.2.2 l hl)

theorem parse_amid_app (a0 : ApplicationEntry) (x : String) :
    a0.parseSdpLine (SdpLine.amid x) = { a0 with mid := x } := rfl

theorem parse_amid_media (m0 : MediaEntry) (x : String) :
    m0.parseSdpLine (SdpLine.amid x) = { m0 with mid := x } := rfl

theorem parse_connection (m0 : MediaEntry) :
    m0.parseSdpLine SdpLine.connection = m0 := by
  simp [MediaEntry.parseSdpLine, SdpLine.mediaOpaque]

theorem parse_bitrate (m0 : MediaEntry) (n : Nat) :
    m0.parseSdpLine (SdpLine.bitrate n) = { m0 with bitrate := (n : Int) } := rfl

theorem foldl_app_dirLines (dd : Direction) (a0 : ApplicationEntry)
    (h : a0.direction = Direction.Unknown) :
    List.foldl ApplicationEntry.parseSdpLine a0 (dirLines dd)
      = { a0 with direction := dd } := by
  by_cases hd : dd = Direction.Unknown
  · subst hd
    rw [show dirLines Direction.Unknown = [] from rfl, List.foldl_nil, ← h]
  · rw [dirLines, if_neg hd, List.foldl_cons, List.foldl_nil]
    rfl

theorem foldl_media_dirLines (dd : Direction) (m0 : MediaEntry)
    (h : m0.direction = Direction.Unknown) :
    List.foldl MediaEntry.parseSdpLine m0 (dirLines dd)
      = { m0 with direction := dd } := by
  by_cases hd : dd = Direction.Unknown
  · subst hd
    rw [show dirLines Direction.Unknown = [] from rfl, List.foldl_nil, ← h]
  · rw [dirLines, if_neg hd, List.foldl_cons, List.foldl_nil]
    rfl

theorem foldl_app_sctp (o : Option Nat) (a0 : ApplicationEntry)
    (h : a0.sctpPort = none) :
    List.foldl ApplicationEntry.parseSdpLine a0 (optNatLines SdpLine.sctpPort o)
      = { a0 with sctpPort := o } := by
  cases o with
  | none =>
      rw [show optNatLines SdpLine.sctpPort none = [] from rfl, List.foldl_nil, ← h]
  | some v =>
      rw [show optNatLines SdpLine.sctpPort (some v) = [SdpLine.sctpPort v] from rfl,
        List.foldl_cons, List.foldl_nil]
      rfl

theorem foldl_app_msize (o : Option Nat) (a0 : ApplicationEntry)
    (h : a0.maxMessageSize = none) :
    List.foldl ApplicationEntry.parseSdpLine a0 (optNatLines SdpLine.maxMessageSize o)
      = { a0 with maxMessageSize := o } := by
  cases o with
  | none =>
      rw [show optNatLines SdpLine.maxMessageSize none = [] from rfl,
        List.foldl_nil, ← h]
  | some v =>
      rw [show optNatLines SdpLine.maxMessageSize (some v)
          = [SdpLine.maxMessageSize v] from rfl, List.foldl_cons, List.foldl_nil]
      rfl

theorem foldl_bitrateLines (b : Int) (m0 : MediaEntry)
    (hb : b = -1 ∨ 0 ≤ b) (h0 : m0.bitrate = -1) :
    List.foldl MediaEntry.parseSdpLine m0 (bitrateLines b)
      = { m0 with bitrate := b } := by
  rcases hb with hb | hb
  · subst hb
    rw [show bitrateLines (-1) = [] from rfl, List.foldl_nil, ← h0]
  · rw [bitrateLines, if_pos hb, List.foldl_cons, parse_bitrate, List.foldl_nil,
      Int.toNat_of_nonneg hb]

theorem app_section_fold (a : ApplicationEntry)
    (ha : ∀ l ∈ a.attributes, l.appOpaque = true) (ph : String) :
    List.foldl ApplicationEntry.parseSdpLine (ApplicationEntry.make ph)
      (Entry.body (Entry.application a)) = a := by
  have h1 : Entry.body (Entry.application a)
      = SdpLine.amid a.mid :: ((dirLines a.direction
          ++ (optNatLines SdpLine.sctpPort a.sctpPort
              ++ optNatLines SdpLine.maxMessageSize a.maxMessageSize))
          ++ a.attributes) := rfl
  rw [h1, List.foldl_cons, parse_amid_app, List.foldl_append, List.foldl_append,
    List.foldl_append]
  rw [foldl_app_dirLines a.direction _ rfl]
  rw [foldl_app_sctp a.sctpPort _ rfl]
  rw [foldl_app_msize a.maxMessageSize _ rfl]
  rw [foldl_app_attrs a.attributes ha]
  simp [ApplicationEntry.make]

theorem media_section_fold (m : MediaEntry) (hwf : m.Wf) (ph : String) :
    List.foldl MediaEntry.parseSdpLine
      (MediaEntry.make m.type m.descr ph Direction.Unknown)
      (Entry.body (Entry.media m)) = m := by
  obtain ⟨hty, hnodup, hbas, hattrs⟩ := hwf
  have h1 : Entry.body (Entry.media m)
      = SdpLine.amid m.mid :: (dirLines m.direction
          ++ SdpLine.connection :: ((bitrateLines m.bitrate
              ++ rtpLines m.rtpMap ++ ssrcLines m.ssrcs) ++ m.attributes)) := rfl
  rw [h1, List.foldl_cons, parse_amid_media, List.foldl_append]
  rw [foldl_media_dirLines m.direction _ rfl]
  rw [List.foldl_cons, parse_connection]
  rw [List.foldl_append, List.foldl_append, List.foldl_append]
  rw [foldl_bitrateLines m.bitrate _ hbas rfl]
  rw [foldl_media_rtpmaps m.rtpMap _ (by simpa [MediaEntry.make] using hnodup)]
  rw [foldl_media_ssrcs]
  rw [foldl_media_attrs m.attributes hattrs]
  simp [MediaEntry.make]

theorem dropApps_of_no_apps : ∀ l : List Entry, countApps l = 0 → dropApps l = l := by
  intro l
  induction l with
  | nil => intro _; rfl
  | cons e es ih =>
      intro h
      by_cases he : e.isApplication = true
      · simp [countApps, he] at h
      · simp only [countApps, he, if_false, dropApps] at h ⊢
        simp [he, ih (by omega)]

theorem parse_section (e : Entry) (he : e.Wf) (d0 : Description)
    (happ : e.isApplication = true → countApps d0.entries = 0) :
    List.foldl Description.parseLine d0 e.generateSdp
      = { d0 with entries := d0.entries ++ [e] } := by
  cases e with
  | media m =>
      have hm : m.Wf := he
      have h1 : d0.parseLine (SdpLine.mline m.type m.descr)
          = { d0 with entries := d0.entries
              ++ [Entry.media (MediaEntry.make m.type m.descr
                    (toString d0.entries.length) Direction.Unknown)] } := by
        simp [Description.parseLine, hm.1]
      rw [show Entry.generateSdp (Entry.media m)
          = SdpLine.mline m.type m.descr :: Entry.body (Entry.media m) from rfl]
      rw [List.foldl_cons, h1]
      rw [foldl_parse_entryLevel _ (body_entryLevel _ he) _ d0.entries _ rfl]
      rw [foldl_entry_media, media_section_fold m hm]
  | application a =>
      have ha : ∀ l ∈ a.attributes, l.appOpaque = true := he
      have hd : dropApps d0.entries = d0.entries := dropApps_of_no_apps _ (happ rfl)
      have h1 : d0.parseLine (SdpLine.mline "application" appDescr)
          = { d0 with entries := d0.entries
              ++ [Entry.application (ApplicationEntry.make
                    (toString d0.entries.length))] } := by
        simp [Description.parseLine, hd]
      rw [show Entry.generateSdp (Entry.application a)
          = SdpLine.mline "application" appDescr
              :: Entry.body (Entry.application a) from rfl]
      rw [List.foldl_cons, h1]
      rw [foldl_parse_entryLevel _ (body_entryLevel _ he) _ d0.entries _ rfl]
      rw [foldl_entry_application, app_section_fold a ha]

theorem parse_sections (es : List Entry) :
    ∀ d0 : Description, (∀ e ∈ es, e.Wf) →
      countApps d0.entries + countApps es ≤ 1 →
      List.foldl Description.parseLine d0 (linesJoin (es.map Entry.generateSdp))
        = { d0 with entries := d0.entries ++ es } := by
  induction es with
  | nil => intro d0 _ _; simp [linesJoin]
  | cons e rest ih =>
      intro d0 hwf hcnt
      have hjoin : linesJoin ((e :: rest).map Entry.generateSdp)
          = e.generateSdp ++ linesJoin (rest.map Entry.generateSdp) := rfl
      have happ : e.isApplication = true → countApps d0.entries = 0 := by
        intro hae
        simp [countApps, hae] at hcnt
        omega
      rw [hjoin, List.foldl_append, parse_section e (hwf e (by simp)) d0 happ]
      rw [ih _ (fun x hx => hwf x (by simp [hx])) ?hcnt2]
      case hcnt2 =>
        show countApps (d0.entries ++ [e]) + countApps rest ≤ 1
        rw [countApps_append]
        by_cases he : e.isApplication = true <;>
          simp [countApps, he] at hcnt ⊢ <;> omega
      simp

theorem parse_sessionLines (d : Description) (t : DType) (r : Role) :
    List.foldl Description.parseLine (Description.init t r) d.sessionLines
      = Description.mk t r d.username d.sessionId d.iceUfrag d.icePwd
          d.fingerprint [] [] false := by
  unfold Description.sessionLines
  by_cases hb : 1 < d.entries.length <;>
    cases hu : d.iceUfrag <;> cases hp : d.icePwd <;> cases hf : d.fingerprint <;>
      simp [hb, hu, hp, hf, optLines, List.foldl_append, Description.parseLine,
        Description.init]

/-- **C1.** For every programmatically built Description (characterized by the
well-formedness every programmatic construction maintains), parsing the text
produced by `generateSdp` — under the same explicit type/role hints, since SDP
text carries neither — reproduces the Description exactly: in particular the
same type, role, entry mids and directions, the RTPMaps and SSRCs of its Media
entries, its candidate set, and the preserved opaque attribute lines in stable
order. -/
theorem generate_parse_roundTrip (d : Description) (h : d.Wf) :
    Description.parse d.generateSdp d.type d.role = d := by
  obtain ⟨hwf, hcnt⟩ := h
  obtain ⟨t, r, u, s, iu, ip, fp, ents, cands, hasEnded⟩ := d
  unfold Description.parse Description.generateSdp
  rw [List.foldl_append, parse_sessionLines]
  dsimp only
  cases ents with
  | nil =>
      simp only [Description.entriesLines]
      rw [foldl_parse_candidateLines]
      simp
  | cons e rest =>
      simp only [Description.entriesLines]
      rw [List.foldl_append, List.foldl_append]
      rw [parse_section e (hwf e (by simp))
        (Description.mk t r u s iu ip fp [] [] false) (fun _ => rfl)]
      dsimp only
      rw [foldl_parse_candidateLines]
      simp only [List.nil_append, Bool.false_or]
      rw [parse_sections rest (Description.mk t r u s iu ip fp [e] cands hasEnded)
        (fun x hx => hwf x (by simp [hx])) ?hcnt2]
      case hcnt2 =>
        show countApps [e] + countApps rest ≤ 1
        by_cases he : e.isApplication = true <;>
          simp [countApps, he] at hcnt ⊢ <;> omega
      simp

/-- Witness for C1: the concrete sample Description round-trips. -/
theorem generate_parse_roundTrip_witness :
    Description.parse roundTripSample.generateSdp roundTripSample.type
        roundTripSample.role = roundTripSample :=
  generate_parse_roundTrip roundTripSample (by decide)

end Rtc
